import Mathlib

/-!
Verification of the checkers engine (`src/game/engine.ts`).

The engine is embedded shallowly: boards are lists of rows of optional
pieces, coordinates are integers (the generator adds signed direction
offsets before bounds-checking, exactly as the source does), and every
numeric score is an exact rational.  JavaScript `null` becomes `Option`,
and the JS truthiness test `if (forcedPieceId)` is modelled by comparing
the defaulted value against 0, which is falsy in JS.  The field `from`
of a move is renamed `fromSq` (`from` is a Lean keyword) and `to` is
renamed `toSq` for symmetry.
-/

inductive Player where
  | light : Player
  | dark : Player
deriving DecidableEq, Repr

structure Piece where
  id : Nat
  player : Player
  king : Bool
deriving DecidableEq, Repr

abbrev Cell := Option Piece

abbrev Board := List (List Cell)

structure Move where
  pieceId : Nat
  fromSq : Int × Int
  toSq : Int × Int
  capture : Option (Int × Int)
deriving DecidableEq, Repr

structure AppliedMove where
  board : Board
  currentPlayer : Player
  forcedPieceId : Option Nat
  capturedPieceId : Option Nat
  promoted : Bool
deriving DecidableEq, Repr

inductive AISkill where
  | easy : AISkill
  | medium : AISkill
  | hard : AISkill
deriving DecidableEq, Repr

/-- Reading a cell; squares outside the stored grid read as empty. -/
def getCell (board : Board) (row col : Int) : Cell :=
  if 0 ≤ row ∧ 0 ≤ col then (board.getD row.toNat []).getD col.toNat none else none

/-- Writing a cell; writes outside the stored grid are dropped. -/
def setCell (board : Board) (row col : Int) (v : Cell) : Board :=
  if 0 ≤ row ∧ 0 ≤ col then
    board.set row.toNat ((board.getD row.toNat []).set col.toNat v)
  else board

/-- The data-model invariant: an 8 by 8 grid. -/
def boardWf (board : Board) : Bool :=
  board.length == 8 && board.all (fun row => row.length == 8)

def emptyBoard : Board := List.replicate 8 (List.replicate 8 (none : Cell))

def isDarkSquare (row col : Nat) : Bool := (row + col) % 2 == 1

def otherPlayer (player : Player) : Player :=
  if player = Player.light then Player.dark else Player.light

def isInside (row col : Int) : Bool :=
  decide (0 ≤ row ∧ row < 8 ∧ 0 ≤ col ∧ col < 8)

def getDirections (piece : Piece) : List (Int × Int) :=
  if piece.king then [(1, -1), (1, 1), (-1, -1), (-1, 1)]
  else if piece.player = Player.light then [(-1, -1), (-1, 1)] else [(1, -1), (1, 1)]

/-- One row of the initial-board fill loop: place a piece on every dark square. -/
def fillRow (player : Player) (row : Nat) (acc : Board × Nat) (col : Nat) : Board × Nat :=
  if isDarkSquare row col then
    (setCell acc.1 row col (some { id := acc.2, player := player, king := false }), acc.2 + 1)
  else acc

def fillRegion (start : Board × Nat) (rows : List Nat) (player : Player) : Board × Nat :=
  rows.foldl (fun acc row => (List.range 8).foldl (fillRow player row) acc) start

def createInitialBoard (startId : Nat) : Board × Nat :=
  fillRegion (fillRegion (emptyBoard, startId) [0, 1, 2] Player.dark) [5, 6, 7] Player.light

/-- One direction of the per-piece capture-candidate loop. -/
def captureInDir (board : Board) (row col : Int) (piece : Piece) (d : Int × Int) : Option Move :=
  let middleRow := row + d.1
  let middleCol := col + d.2
  let targetRow := row + d.1 * 2
  let targetCol := col + d.2 * 2
  if isInside middleRow middleCol = true ∧ isInside targetRow targetCol = true then
    match getCell board middleRow middleCol with
    | none => none
    | some middlePiece =>
      if middlePiece.player = piece.player then none
      else if (getCell board targetRow targetCol).isSome then none
      else some { pieceId := piece.id, fromSq := (row, col), toSq := (targetRow, targetCol),
                  capture := some (middleRow, middleCol) }
  else none

def getSinglePieceCaptures (board : Board) (row col : Int) (piece : Piece) : List Move :=
  (getDirections piece).filterMap (captureInDir board row col piece)

/-- One direction of the per-piece slide-candidate loop. -/
def slideInDir (board : Board) (row col : Int) (piece : Piece) (d : Int × Int) : Option Move :=
  let targetRow := row + d.1
  let targetCol := col + d.2
  if isInside targetRow targetCol = true then
    if (getCell board targetRow targetCol).isSome then none
    else some { pieceId := piece.id, fromSq := (row, col), toSq := (targetRow, targetCol),
                capture := none }
  else none

def getSinglePieceSlides (board : Board) (row col : Int) (piece : Piece) : List Move :=
  (getDirections piece).filterMap (slideInDir board row col piece)

/-- All 64 squares in the row-major order of the nested scan loops. -/
def allSquares : List (Int × Int) :=
  (List.range 8).flatMap (fun (r : Nat) =>
    (List.range 8).map (fun (c : Nat) => (((r : Nat) : Int), ((c : Nat) : Int))))

def findPiece (pieceId : Nat) (board : Board) : Option (Int × Int × Piece) :=
  allSquares.findSome? (fun rc =>
    match getCell board rc.1 rc.2 with
    | some piece => if piece.id = pieceId then some (rc.1, rc.2, piece) else none
    | none => none)

/-- One square of the legal-move scan: player's pieces push their captures,
or, when they have none, their slides. -/
def scanStep (board : Board) (player : Player) (acc : List Move × List Move)
    (rc : Int × Int) : List Move × List Move :=
  match getCell board rc.1 rc.2 with
  | none => acc
  | some piece =>
    if piece.player ≠ player then acc
    else
      let pieceCaptures := getSinglePieceCaptures board rc.1 rc.2 piece
      if pieceCaptures.isEmpty then
        (acc.1, acc.2 ++ getSinglePieceSlides board rc.1 rc.2 piece)
      else (acc.1 ++ pieceCaptures, acc.2)

def getLegalMoves (board : Board) (player : Player) (forcedPieceId : Option Nat) : List Move :=
  if forcedPieceId.getD 0 ≠ 0 then
    match findPiece (forcedPieceId.getD 0) board with
    | none => []
    | some (r, c, piece) => getSinglePieceCaptures board r c piece
  else
    let pair := allSquares.foldl (scanStep board player) ([], [])
    if pair.1.isEmpty then pair.2 else pair.1

/-- The promotion test of `applyMove` (the source checks the moving piece's
own player against the far rank). -/
def promotes (piece : Piece) (toRow : Int) : Bool :=
  if piece.king then false
  else if (piece.player = Player.light ∧ toRow = 0) ∨ (piece.player = Player.dark ∧ toRow = 7)
  then true
  else false

def cloneBoard (board : Board) : Board :=
  board.map (fun row => row.map (fun cell =>
    match cell with
    | none => none
    | some piece => some { id := piece.id, player := piece.player, king := piece.king }))

/-- Body of `applyMove` once the moving piece has been found.  The source
mutates the cloned piece object in place on promotion; the board cell at
the destination still holds that object exactly when it was not removed
by the capture write, which the value-level guard reproduces. -/
def applyMoveCore (board : Board) (move : Move) (currentPlayer : Player)
    (movingPiece : Piece) : AppliedMove :=
  let toRow := move.toSq.1
  let toCol := move.toSq.2
  let b1 := setCell board move.fromSq.1 move.fromSq.2 none
  let b2 := setCell b1 toRow toCol (some movingPiece)
  let capturedPieceId : Option Nat :=
    match move.capture with
    | none => none
    | some cap => Option.map Piece.id (getCell b2 cap.1 cap.2)
  let b3 :=
    match move.capture with
    | none => b2
    | some cap => setCell b2 cap.1 cap.2 none
  let promoted := promotes movingPiece toRow
  let movedPiece := if promoted then { movingPiece with king := true } else movingPiece
  let b4 :=
    if promoted ∧ getCell b3 toRow toCol = some movingPiece then
      setCell b3 toRow toCol (some movedPiece)
    else b3
  let continueChain : Bool :=
    move.capture.isSome && !promoted &&
      !(getSinglePieceCaptures b4 toRow toCol movedPiece).isEmpty
  { board := b4,
    currentPlayer := if continueChain then currentPlayer else otherPlayer currentPlayer,
    forcedPieceId := if continueChain then some movingPiece.id else none,
    capturedPieceId := capturedPieceId,
    promoted := promoted }

def applyMove (board : Board) (move : Move) (currentPlayer : Player) : AppliedMove :=
  let nextBoard := cloneBoard board
  match getCell nextBoard move.fromSq.1 move.fromSq.2 with
  | none =>
    { board := nextBoard, currentPlayer := currentPlayer, forcedPieceId := none,
      capturedPieceId := none, promoted := false }
  | some movingPiece => applyMoveCore nextBoard move currentPlayer movingPiece

/-- Scores as the JS numbers used by the search: rationals extended with
the two infinities used to seed best-score and alpha-beta bounds. -/
inductive Score where
  | negInf : Score
  | fin : ℚ → Score
  | posInf : Score
deriving DecidableEq, Repr

def Score.blt : Score → Score → Bool
  | _, Score.negInf => false
  | Score.negInf, _ => true
  | Score.posInf, _ => false
  | Score.fin _, Score.posInf => true
  | Score.fin a, Score.fin b => decide (a < b)

def Score.ble (a b : Score) : Bool := !(Score.blt b a)

def Score.max (a b : Score) : Score := if Score.blt a b then b else a

def Score.min (a b : Score) : Score := if Score.blt b a then b else a

/-- An injectable random source: the stream of values the JS closure
would return, together with how many have been consumed. -/
structure Rng where
  seq : Nat → ℚ
  idx : Nat

def Rng.next (r : Rng) : ℚ × Rng := (r.seq r.idx, { seq := r.seq, idx := r.idx + 1 })

def HARD_SEARCH_DEPTH : Nat := 4

def evaluateBoard (board : Board) (maximizingPlayer : Player) : ℚ :=
  let pieceScore := allSquares.foldl (fun acc rc =>
    match getCell board rc.1 rc.2 with
    | none => acc
    | some piece =>
      let promotionDistance : ℚ :=
        if piece.player = Player.light then ((rc.1 : ℚ)) else 7 - (rc.1 : ℚ)
      let advancement := (7 - promotionDistance) / 7
      let centerDistance := |(rc.1 : ℚ) - 3.5| + |(rc.2 : ℚ) - 3.5|
      let centerControl := (7 - centerDistance) * 0.05
      let pieceValue := (if piece.king then (3.8 : ℚ) else 1.2) + advancement * 0.35 + centerControl
      acc + (if piece.player = maximizingPlayer then pieceValue else -pieceValue)) 0
  let myMobility := (getLegalMoves board maximizingPlayer none).length
  let theirMobility := (getLegalMoves board (otherPlayer maximizingPlayer) none).length
  pieceScore + ((myMobility : ℚ) - (theirMobility : ℚ)) * 0.06

/-- The maximizing inner loop of `minimax`, with the alpha-beta break. -/
def maxLoop (recurse : Board → Player → Option Nat → Score → Score → Rng → Score × Rng)
    (board : Board) (currentPlayer : Player) :
    List Move → Score → Score → Score → Rng → Score × Rng
  | [], value, _, _, rand => (value, rand)
  | m :: rest, value, alpha, beta, rand =>
    let next := applyMove board m currentPlayer
    let child := recurse next.board next.currentPlayer next.forcedPieceId alpha beta rand
    let value1 := Score.max value child.1
    let alpha1 := Score.max alpha value1
    if Score.ble beta alpha1 then (value1, child.2)
    else maxLoop recurse board currentPlayer rest value1 alpha1 beta child.2

/-- The minimizing inner loop of `minimax`, with the alpha-beta break. -/
def minLoop (recurse : Board → Player → Option Nat → Score → Score → Rng → Score × Rng)
    (board : Board) (currentPlayer : Player) :
    List Move → Score → Score → Score → Rng → Score × Rng
  | [], value, _, _, rand => (value, rand)
  | m :: rest, value, alpha, beta, rand =>
    let next := applyMove board m currentPlayer
    let child := recurse next.board next.currentPlayer next.forcedPieceId alpha beta rand
    let value1 := Score.min value child.1
    let beta1 := Score.min beta value1
    if Score.ble beta1 alpha then (value1, child.2)
    else minLoop recurse board currentPlayer rest value1 alpha beta1 child.2

def minimax (maximizingPlayer : Player) :
    Nat → Board → Player → Option Nat → Score → Score → Rng → Score × Rng
  | depth, board, currentPlayer, forcedPieceId, alpha, beta, rand =>
    let moves := getLegalMoves board currentPlayer forcedPieceId
    if moves.isEmpty then
      (if currentPlayer = maximizingPlayer then Score.fin (-1000 - (depth : ℚ))
       else Score.fin (1000 + (depth : ℚ)), rand)
    else
      match depth with
      | 0 =>
        let j := rand.next
        (Score.fin (evaluateBoard board maximizingPlayer + j.1 * 0.01), j.2)
      | Nat.succ d =>
        if currentPlayer = maximizingPlayer then
          maxLoop (minimax maximizingPlayer d) board currentPlayer moves Score.negInf alpha beta rand
        else
          minLoop (minimax maximizingPlayer d) board currentPlayer moves Score.posInf alpha beta rand

def scoreMove (move : Move) (board : Board) (player : Player) (jitter : ℚ) : ℚ :=
  let base := jitter * 0.2
  let movingPiece := getCell board move.fromSq.1 move.fromSq.2
  let capScore : ℚ :=
    match move.capture with
    | none => 0
    | some cap =>
      6 + (match getCell board cap.1 cap.2 with
           | some captured => if captured.king then (3 : ℚ) else 0
           | none => 0)
  let pieceScore : ℚ :=
    match movingPiece with
    | none => 0
    | some piece =>
      if piece.king then 0
      else if (player = Player.light ∧ move.toSq.1 = 0) ∨ (player = Player.dark ∧ move.toSq.1 = 7)
      then 4
      else
        let advance : Int :=
          if player = Player.light then move.fromSq.1 - move.toSq.1
          else move.toSq.1 - move.fromSq.1
        (advance : ℚ) * 0.55
  let centerDistance : ℚ := |(move.toSq.1 : ℚ) - 3.5| + |(move.toSq.2 : ℚ) - 3.5|
  base + capScore + pieceScore + (7 - centerDistance) * 0.12

/-- The greedy best-score loop of `chooseBestMove` (strict improvement only). -/
def bestLoop (board : Board) (player : Player) :
    List Move → Move → Score → Rng → Move × Score × Rng
  | [], bestMove, bestScore, rand => (bestMove, bestScore, rand)
  | m :: rest, bestMove, bestScore, rand =>
    let j := rand.next
    let s := Score.fin (scoreMove m board player j.1)
    if Score.blt bestScore s then bestLoop board player rest m s j.2
    else bestLoop board player rest bestMove bestScore j.2

def chooseBestMove (moves : List Move) (board : Board) (player : Player) (rand : Rng) :
    Option Move :=
  match moves with
  | [] => none
  | m0 :: _ => some (bestLoop board player moves m0 Score.negInf rand).1

/-- The near-tie test of the lookahead root loop; in JS it is only true when
both scores are finite (any comparison against NaN or Infinity is false). -/
def scoreClose (a b : Score) : Bool :=
  match a, b with
  | Score.fin x, Score.fin y => decide (|x - y| < 0.001)
  | _, _ => false

/-- The root loop of the hard policy: keep the strictly best move, and on a
near tie consult the random source with probability one half. -/
def lookLoop (board : Board) (player : Player) :
    List Move → Move → Score → Rng → Move × Score × Rng
  | [], bestMove, bestScore, rand => (bestMove, bestScore, rand)
  | m :: rest, bestMove, bestScore, rand =>
    let next := applyMove board m player
    let child := minimax player (HARD_SEARCH_DEPTH - 1) next.board next.currentPlayer
      next.forcedPieceId Score.negInf Score.posInf rand
    if Score.blt bestScore child.1 then lookLoop board player rest m child.1 child.2
    else if scoreClose child.1 bestScore then
      let t := child.2.next
      if (1 : ℚ) / 2 < t.1 then lookLoop board player rest m bestScore t.2
      else lookLoop board player rest bestMove bestScore t.2
    else lookLoop board player rest bestMove bestScore child.2

def chooseBestLookaheadMove (moves : List Move) (board : Board) (player : Player)
    (rand : Rng) : Option Move :=
  match moves with
  | [] => none
  | m0 :: _ => some (lookLoop board player moves m0 Score.negInf rand).1

def chooseMoveBySkill (skill : AISkill) (moves : List Move) (board : Board) (player : Player)
    (rand : Rng) : Option Move :=
  if moves.isEmpty then none
  else
    match skill with
    | AISkill.easy =>
      let r := rand.next
      let index : Int := min ((moves.length : Int) - 1) ⌊r.1 * (moves.length : ℚ)⌋
      if index < 0 then none else moves[index.toNat]?
    | AISkill.medium => chooseBestMove moves board player rand
    | AISkill.hard => chooseBestLookaheadMove moves board player rand

/-- Spec-side: the capture candidates contributed by one square, when it
holds a piece of the given player. -/
def pieceCapturesAt (board : Board) (player : Player) (rc : Int × Int) : List Move :=
  match getCell board rc.1 rc.2 with
  | none => []
  | some piece =>
    if piece.player ≠ player then [] else getSinglePieceCaptures board rc.1 rc.2 piece

/-- Spec-side: the slide candidates contributed by one square, when it
holds a piece of the given player. -/
def pieceSlidesAt (board : Board) (player : Player) (rc : Int × Int) : List Move :=
  match getCell board rc.1 rc.2 with
  | none => []
  | some piece =>
    if piece.player ≠ player then [] else getSinglePieceSlides board rc.1 rc.2 piece

/-- Spec-side: the union of ALL capture candidates across the player's pieces. -/
def allCaptureCandidates (board : Board) (player : Player) : List Move :=
  allSquares.flatMap (pieceCapturesAt board player)

/-- Spec-side: the union of all of the player's slide candidates. -/
def allSlideCandidates (board : Board) (player : Player) : List Move :=
  allSquares.flatMap (pieceSlidesAt board player)

/-- Spec-side: no piece with the given id exists anywhere on the board. -/
def idAbsent (board : Board) (fid : Nat) : Bool :=
  allSquares.all (fun rc =>
    match getCell board rc.1 rc.2 with
    | some p => p.id != fid
    | none => true)

/-- Spec-side: the given square is the only one holding a piece with this id. -/
def idOnlyAt (board : Board) (fid : Nat) (r c : Int) : Bool :=
  allSquares.all (fun rc =>
    match getCell board rc.1 rc.2 with
    | some p => p.id != fid || (rc.1 == r && rc.2 == c)
    | none => true)

/-- Spec-side: the selector produced a move and that move is a capture. -/
def returnsCapture (result : Option Move) : Prop :=
  match result with
  | some m => m.capture.isSome = true
  | none => False

/-- Spec-side: the move is a per-piece candidate (capture or slide) of one
of the player's pieces on the board. -/
def isPieceCandidate (board : Board) (player : Player) (m : Move) : Prop :=
  ∃ r c piece, getCell board r c = some piece ∧ piece.player = player ∧
    (m ∈ getSinglePieceCaptures board r c piece ∨ m ∈ getSinglePieceSlides board r c piece)

def rand99 : Rng := { seq := fun _ => 99 / 100, idx := 0 }

def rand0 : Rng := { seq := fun _ => 0, idx := 0 }

/-- A position where one light piece has a capture and another only slides. -/
def w1Board : Board :=
  setCell (setCell (setCell emptyBoard 5 2 (some { id := 1, player := Player.light, king := false }))
    4 1 (some { id := 2, player := Player.dark, king := false }))
    6 5 (some { id := 3, player := Player.light, king := false })

/-- A position with a two-jump chain for the light man at (5,2). -/
def w2Board : Board :=
  setCell (setCell (setCell emptyBoard 5 2 (some { id := 1, player := Player.light, king := false }))
    4 1 (some { id := 2, player := Player.dark, king := false }))
    2 1 (some { id := 3, player := Player.dark, king := false })

def w2Move : Move := { pieceId := 1, fromSq := (5, 2), toSq := (3, 0), capture := some (4, 1) }

/-- A capture that lands the light man on row 0 while a king followup would exist. -/
def w3Board : Board :=
  setCell (setCell (setCell emptyBoard 2 1 (some { id := 1, player := Player.light, king := false }))
    1 2 (some { id := 2, player := Player.dark, king := false }))
    1 4 (some { id := 3, player := Player.dark, king := false })

def w3Move : Move := { pieceId := 1, fromSq := (2, 1), toSq := (0, 3), capture := some (1, 2) }

/-- A position where piece 7 (light) has a capture over (3,2). -/
def w4Board : Board :=
  setCell (setCell emptyBoard 4 3 (some { id := 7, player := Player.light, king := false }))
    3 2 (some { id := 8, player := Player.dark, king := false })

/-- A board with no piece of id 0 but a light piece free to slide. -/
def cex4Board : Board := setCell emptyBoard 5 0 (some { id := 5, player := Player.light, king := false })

def w5Move : Move := { pieceId := 9, fromSq := (0, 0), toSq := (1, 1), capture := none }

def w8MoveA : Move := { pieceId := 1, fromSq := (0, 0), toSq := (0, 0), capture := none }

def w8MoveB : Move := { pieceId := 2, fromSq := (0, 0), toSq := (0, 0), capture := none }

/-- One hundred and one moves: the easy policy with 0.99 picks index 99 here. -/
def cex8Moves : List Move := List.replicate 100 w8MoveA ++ [w8MoveB]

/-- A position whose light man at (5,2) has both a capture and a slide candidate. -/
def w9Board : Board :=
  setCell (setCell emptyBoard 5 2 (some { id := 1, player := Player.light, king := false }))
    4 1 (some { id := 2, player := Player.dark, king := false })

def w9Slide : Move := { pieceId := 1, fromSq := (5, 2), toSq := (4, 3), capture := none }

def w9Cap : Move := { pieceId := 1, fromSq := (5, 2), toSq := (3, 0), capture := some (4, 1) }

/-- Two light men; the moves below are on-board but not per-piece candidates. -/
def cex9Board : Board :=
  setCell (setCell emptyBoard 0 1 (some { id := 1, player := Player.light, king := false }))
    1 2 (some { id := 2, player := Player.light, king := false })

/-- An on-board slide that promotes the man at (1,2). -/
def cex9Slide : Move := { pieceId := 2, fromSq := (1, 2), toSq := (0, 3), capture := none }

/-- An on-board "capture" marked move running the man at (0,1) backwards. -/
def cex9Cap : Move := { pieceId := 1, fromSq := (0, 1), toSq := (7, 0), capture := some (4, 4) }

theorem cloneCell_eq (cell : Cell) :
    (match cell with
     | none => (none : Cell)
     | some piece => some { id := piece.id, player := piece.player, king := piece.king }) = cell := by
  cases cell <;> rfl

theorem cloneRow_eq (row : List Cell) :
    (row.map (fun cell =>
      match cell with
      | none => (none : Cell)
      | some piece => some { id := piece.id, player := piece.player, king := piece.king })) = row := by
  induction row with
  | nil => rfl
  | cons c t ih => rw [List.map_cons, cloneCell_eq, ih]

theorem cloneBoard_eq (board : Board) : cloneBoard board = board := by
  induction board with
  | nil => rfl
  | cons r t ih =>
    show cloneBoard (r :: t) = r :: t
    unfold cloneBoard at ih ⊢
    rw [List.map_cons, cloneRow_eq, ih]

theorem getD_set_self {α : Type} (l : List α) (i : Nat) (v d : α) (h : i < l.length) :
    (l.set i v).getD i d = v := by
  induction l generalizing i with
  | nil => simp at h
  | cons a t ih =>
    cases i with
    | zero => rfl
    | succ n => simpa using ih n (by simpa using h)

theorem getD_set_ne {α : Type} (l : List α) (i j : Nat) (v d : α) (h : i ≠ j) :
    (l.set i v).getD j d = l.getD j d := by
  induction l generalizing i j with
  | nil => rfl
  | cons a t ih =>
    cases i with
    | zero =>
      cases j with
      | zero => exact absurd rfl h
      | succ m => rfl
    | succ n =>
      cases j with
      | zero => rfl
      | succ m => simpa using ih n m (fun hh => h (by rw [hh]))

theorem set_of_len_le {α : Type} (l : List α) (i : Nat) (v : α) (h : l.length ≤ i) :
    l.set i v = l := by
  induction l generalizing i with
  | nil => rfl
  | cons a t ih =>
    cases i with
    | zero => simp at h
    | succ n => simp only [List.set_cons_succ, ih n (by simpa using h)]

theorem boardWf_spec (board : Board) (hwf : boardWf board = true) :
    board.length = 8 ∧ ∀ row ∈ board, row.length = 8 := by
  unfold boardWf at hwf
  rw [Bool.and_eq_true] at hwf
  refine ⟨eq_of_beq hwf.1, ?_⟩
  intro row hrow
  exact eq_of_beq (List.all_eq_true.mp hwf.2 row hrow)

theorem getCell_setCell_self (board : Board) (r c : Int) (v : Cell)
    (hwf : boardWf board = true) (h0r : 0 ≤ r) (h8r : r < 8) (h0c : 0 ≤ c) (h8c : c < 8) :
    getCell (setCell board r c v) r c = v := by
  obtain ⟨hlen, hrows⟩ := boardWf_spec board hwf
  unfold getCell setCell
  rw [if_pos ⟨h0r, h0c⟩, if_pos ⟨h0r, h0c⟩]
  have hr : r.toNat < board.length := by omega
  have hrowmem : board.getD r.toNat [] ∈ board := by
    rw [List.getD_eq_getElem board [] hr]
    exact List.getElem_mem hr
  have hrl : (board.getD r.toNat []).length = 8 := hrows _ hrowmem
  rw [getD_set_self board r.toNat _ [] hr, getD_set_self _ c.toNat v none (by omega)]

theorem getCell_setCell_ne (board : Board) (r c r2 c2 : Int) (v : Cell)
    (h : r ≠ r2 ∨ c ≠ c2) :
    getCell (setCell board r2 c2 v) r c = getCell board r c := by
  unfold getCell setCell
  by_cases h2 : 0 ≤ r2 ∧ 0 ≤ c2
  · rw [if_pos h2]
    by_cases h1 : 0 ≤ r ∧ 0 ≤ c
    · rw [if_pos h1, if_pos h1]
      by_cases hrr : r = r2
      · subst hrr
        have hcc : c ≠ c2 := by
          rcases h with hl | hr2
          · exact absurd rfl hl
          · exact hr2
        have hne : c2.toNat ≠ c.toNat := by omega
        by_cases hlt : r.toNat < board.length
        · rw [getD_set_self board r.toNat _ [] hlt, getD_set_ne _ c2.toNat c.toNat v none hne]
        · rw [set_of_len_le board r.toNat _ (by omega)]
      · have hne : r2.toNat ≠ r.toNat := by omega
        rw [getD_set_ne board r2.toNat r.toNat _ [] hne]
    · rw [if_neg h1, if_neg h1]
  · rw [if_neg h2]

theorem boardWf_setCell (board : Board) (r c : Int) (v : Cell)
    (hwf : boardWf board = true) : boardWf (setCell board r c v) = true := by
  obtain ⟨hlen, hrows⟩ := boardWf_spec board hwf
  unfold setCell
  by_cases h : 0 ≤ r ∧ 0 ≤ c
  · rw [if_pos h]
    by_cases hr : r.toNat < board.length
    · have hrowmem : board.getD r.toNat [] ∈ board := by
        rw [List.getD_eq_getElem board [] hr]
        exact List.getElem_mem hr
      unfold boardWf
      rw [Bool.and_eq_true]
      constructor
      · simp only [List.length_set, beq_iff_eq]
        exact hlen
      · rw [List.all_eq_true]
        intro row hrow
        rcases List.mem_or_eq_of_mem_set hrow with hmem | heq
        · simp only [beq_iff_eq]
          exact hrows row hmem
        · subst heq
          simp only [List.length_set, beq_iff_eq]
          exact hrows _ hrowmem
    · rw [set_of_len_le board r.toNat _ (by omega)]
      exact hwf
  · rw [if_neg h]
    exact hwf

theorem applyMove_of_some (board : Board) (move : Move) (player : Player) (piece : Piece)
    (h : getCell board move.fromSq.1 move.fromSq.2 = some piece) :
    applyMove board move player = applyMoveCore board move player piece := by
  unfold applyMove
  simp only [cloneBoard_eq]
  rw [h]

theorem applyMove_of_none (board : Board) (move : Move) (player : Player)
    (h : getCell board move.fromSq.1 move.fromSq.2 = none) :
    applyMove board move player =
      { board := board, currentPlayer := player, forcedPieceId := none,
        capturedPieceId := none, promoted := false } := by
  unfold applyMove
  simp only [cloneBoard_eq]
  rw [h]

theorem captureInDir_eq_some (board : Board) (row col : Int) (piece : Piece) (d : Int × Int)
    (m : Move) (h : captureInDir board row col piece d = some m) :
    m.pieceId = piece.id ∧ m.fromSq = (row, col) ∧ m.toSq = (row + d.1 * 2, col + d.2 * 2) ∧
    m.capture = some (row + d.1, col + d.2) ∧
    isInside (row + d.1 * 2) (col + d.2 * 2) = true := by
  simp only [captureInDir] at h
  by_cases hin : isInside (row + d.1) (col + d.2) = true ∧ isInside (row + d.1 * 2) (col + d.2 * 2) = true
  · rw [if_pos hin] at h
    cases hcm : getCell board (row + d.1) (col + d.2) with
    | none =>
      rw [hcm] at h
      exact absurd h (by simp)
    | some mp =>
      rw [hcm] at h
      have h2 : (if mp.player = piece.player then none
          else if (getCell board (row + d.1 * 2) (col + d.2 * 2)).isSome = true then none
          else some { pieceId := piece.id, fromSq := (row, col),
                      toSq := (row + d.1 * 2, col + d.2 * 2),
                      capture := some (row + d.1, col + d.2) }) = some m := h
      by_cases hpl : mp.player = piece.player
      · rw [if_pos hpl] at h2
        cases h2
      · rw [if_neg hpl] at h2
        by_cases htgt : (getCell board (row + d.1 * 2) (col + d.2 * 2)).isSome = true
        · rw [if_pos htgt] at h2
          cases h2
        · rw [if_neg htgt] at h2
          obtain rfl := (Option.some.inj h2).symm
          exact ⟨rfl, rfl, rfl, rfl, hin.2⟩
  · rw [if_neg hin] at h
    cases h

theorem slideInDir_eq_some (board : Board) (row col : Int) (piece : Piece) (d : Int × Int)
    (m : Move) (h : slideInDir board row col piece d = some m) :
    m.pieceId = piece.id ∧ m.fromSq = (row, col) ∧ m.toSq = (row + d.1, col + d.2) ∧
    m.capture = none ∧ isInside (row + d.1) (col + d.2) = true := by
  simp only [slideInDir] at h
  by_cases hin : isInside (row + d.1) (col + d.2) = true
  · rw [if_pos hin] at h
    by_cases htgt : (getCell board (row + d.1) (col + d.2)).isSome = true
    · rw [if_pos htgt] at h
      cases h
    · rw [if_neg htgt] at h
      obtain rfl := (Option.some.inj h).symm
      exact ⟨rfl, rfl, rfl, rfl, hin⟩
  · rw [if_neg hin] at h
    cases h

theorem mem_getSinglePieceCaptures (board : Board) (row col : Int) (piece : Piece) (m : Move)
    (h : m ∈ getSinglePieceCaptures board row col piece) :
    m.capture.isSome = true ∧ m.pieceId = piece.id ∧ m.fromSq = (row, col) := by
  obtain ⟨d, hd, hsome⟩ := List.mem_filterMap.mp h
  obtain ⟨h1, h2, h3, h4, h5⟩ := captureInDir_eq_some board row col piece d m hsome
  refine ⟨?_, h1, h2⟩
  rw [h4]
  rfl

theorem findSome?_eq_some_of_unique {α β : Type} (f : α → Option β) (v : β) :
    ∀ (l : List α), (∃ a ∈ l, f a = some v) → (∀ x ∈ l, ∀ w, f x = some w → w = v) →
    l.findSome? f = some v := by
  intro l
  induction l with
  | nil =>
    intro hex _
    obtain ⟨a, ha, _⟩ := hex
    cases ha
  | cons x t ih =>
    intro hex huniq
    rw [List.findSome?_cons]
    cases hfx : f x with
    | some w => rw [huniq x (List.mem_cons_self x t) w hfx]
    | none =>
      have hex2 : ∃ a ∈ t, f a = some v := by
        obtain ⟨a, ha, hfa⟩ := hex
        rcases List.mem_cons.mp ha with rfl | hmem
        · rw [hfa] at hfx
          cases hfx
        · exact ⟨a, hmem, hfa⟩
      exact ih hex2 (fun y hy w hw => huniq y (List.mem_cons_of_mem x hy) w hw)

theorem findSome?_eq_none_of_all {α β : Type} (f : α → Option β) :
    ∀ (l : List α), (∀ x ∈ l, f x = none) → l.findSome? f = none := by
  intro l
  induction l with
  | nil => intro _; rfl
  | cons x t ih =>
    intro hall
    rw [List.findSome?_cons, hall x (List.mem_cons_self x t)]
    exact ih (fun y hy => hall y (List.mem_cons_of_mem x hy))

theorem mem_allSquares (rc : Int × Int) :
    rc ∈ allSquares ↔ 0 ≤ rc.1 ∧ rc.1 < 8 ∧ 0 ≤ rc.2 ∧ rc.2 < 8 := by
  cases rc with
  | mk r c =>
    dsimp only
    constructor
    · intro hmem
      obtain ⟨a, ha, hpair⟩ := List.mem_flatMap.mp hmem
      obtain ⟨b, hb, heq⟩ := List.mem_map.mp hpair
      rw [List.mem_range] at ha hb
      simp only [Prod.mk.injEq] at heq
      obtain ⟨h1, h2⟩ := heq
      subst h1
      subst h2
      refine ⟨?_, ?_, ?_, ?_⟩ <;> omega
    · rintro ⟨h1, h2, h3, h4⟩
      refine List.mem_flatMap.mpr ⟨r.toNat, List.mem_range.mpr (by omega), ?_⟩
      refine List.mem_map.mpr ⟨c.toNat, List.mem_range.mpr (by omega), ?_⟩
      simp only [Prod.mk.injEq]
      constructor <;> omega

theorem scanStep_eq (board : Board) (player : Player) (cs ss : List Move) (rc : Int × Int) :
    scanStep board player (cs, ss) rc =
      (cs ++ pieceCapturesAt board player rc,
       ss ++ (if (pieceCapturesAt board player rc).isEmpty = true
              then pieceSlidesAt board player rc else [])) := by
  cases hc : getCell board rc.1 rc.2 with
  | none => simp [scanStep, pieceCapturesAt, pieceSlidesAt, hc]
  | some piece =>
    by_cases hp : piece.player = player
    · by_cases he : (getSinglePieceCaptures board rc.1 rc.2 piece).isEmpty = true
      · have hnil : getSinglePieceCaptures board rc.1 rc.2 piece = [] := by
          rwa [List.isEmpty_iff] at he
        simp [scanStep, pieceCapturesAt, pieceSlidesAt, hc, hp, hnil]
      · simp [scanStep, pieceCapturesAt, pieceSlidesAt, hc, hp, he]
    · simp [scanStep, pieceCapturesAt, pieceSlidesAt, hc, hp]

theorem scan_foldl (board : Board) (player : Player) :
    ∀ (l : List (Int × Int)) (cs ss : List Move),
      l.foldl (scanStep board player) (cs, ss) =
        (cs ++ l.flatMap (pieceCapturesAt board player),
         ss ++ l.flatMap (fun rc =>
           if (pieceCapturesAt board player rc).isEmpty = true
           then pieceSlidesAt board player rc else [])) := by
  intro l
  induction l with
  | nil =>
    intro cs ss
    simp
  | cons rc t ih =>
    intro cs ss
    rw [List.foldl_cons, scanStep_eq, ih]
    simp [List.append_assoc]

theorem flatMap_congr_of_mem {α β : Type} (f g : α → List β) :
    ∀ (l : List α), (∀ a ∈ l, f a = g a) → l.flatMap f = l.flatMap g := by
  intro l
  induction l with
  | nil => intro _; rfl
  | cons x t ih =>
    intro h
    rw [List.flatMap_cons, List.flatMap_cons, h x (List.mem_cons_self x t),
      ih (fun a ha => h a (List.mem_cons_of_mem x ha))]

theorem mem_pieceCapturesAt (board : Board) (player : Player) (rc : Int × Int) (m : Move)
    (h : m ∈ pieceCapturesAt board player rc) :
    ∃ piece, getCell board rc.1 rc.2 = some piece ∧ piece.player = player ∧
      m ∈ getSinglePieceCaptures board rc.1 rc.2 piece := by
  cases hc : getCell board rc.1 rc.2 with
  | none =>
    unfold pieceCapturesAt at h
    rw [hc] at h
    exact absurd h (by simp)
  | some piece =>
    by_cases hp : piece.player = player
    · refine ⟨piece, rfl, hp, ?_⟩
      simpa [pieceCapturesAt, hc, hp] using h
    · simp [pieceCapturesAt, hc, hp] at h

theorem getLegalMoves_none_eq (board : Board) (player : Player) :
    getLegalMoves board player none =
      (if (allCaptureCandidates board player).isEmpty = true
       then allSquares.flatMap (fun rc =>
         if (pieceCapturesAt board player rc).isEmpty = true
         then pieceSlidesAt board player rc else [])
       else allCaptureCandidates board player) := by
  unfold getLegalMoves
  rw [if_neg (by simp)]
  rw [scan_foldl board player allSquares [] []]
  simp only [List.nil_append]
  rfl

theorem flatMap_nil_forall {α β : Type} (f : α → List β) :
    ∀ (l : List α), l.flatMap f = [] → ∀ a ∈ l, f a = [] := by
  intro l
  induction l with
  | nil =>
    intro _ a ha
    cases ha
  | cons x t ih =>
    intro hnil a ha
    rw [List.flatMap_cons] at hnil
    obtain ⟨h1, h2⟩ := List.append_eq_nil.mp hnil
    rcases List.mem_cons.mp ha with rfl | hmem
    · exact h1
    · exact ih h2 a hmem

/-- Claim C1: with `forcedPieceId` unset, if any piece of the player has a
capture candidate the result is exactly the union of all capture candidates
of the player's pieces (and contains no slide); otherwise it is exactly the
union of all slide candidates. -/
theorem getLegalMoves_mandatory_capture (board : Board) (player : Player) :
    (allCaptureCandidates board player ≠ [] →
      getLegalMoves board player none = allCaptureCandidates board player ∧
      (getLegalMoves board player none).all (fun m => m.capture.isSome) = true) ∧
    (allCaptureCandidates board player = [] →
      getLegalMoves board player none = allSlideCandidates board player) := by
  constructor
  · intro hne
    have heq : getLegalMoves board player none = allCaptureCandidates board player := by
      rw [getLegalMoves_none_eq]
      rw [if_neg (by simpa [List.isEmpty_iff] using hne)]
    refine ⟨heq, ?_⟩
    rw [heq, List.all_eq_true]
    intro m hm
    obtain ⟨rc, hrc, hmc⟩ := List.mem_flatMap.mp hm
    obtain ⟨piece, hcell, hpl, hmem⟩ := mem_pieceCapturesAt board player rc m hmc
    exact (mem_getSinglePieceCaptures board rc.1 rc.2 piece m hmem).1
  · intro hnil
    have hall : ∀ rc ∈ allSquares, pieceCapturesAt board player rc = [] :=
      flatMap_nil_forall _ allSquares hnil
    rw [getLegalMoves_none_eq, if_pos (by rw [hnil]; rfl)]
    exact flatMap_congr_of_mem _ _ allSquares
      (fun rc hrc => by rw [if_pos (by rw [hall rc hrc]; rfl)])

/-- Witness for C1: a position where the light man at (5,2) must capture
while the light man at (6,5) has only slides; the result is exactly the
capture-candidate union and contains no slides. -/
theorem mandatory_capture_instance :
    allCaptureCandidates w1Board Player.light ≠ [] ∧
    getLegalMoves w1Board Player.light none = allCaptureCandidates w1Board Player.light ∧
    (getLegalMoves w1Board Player.light none).all (fun m => m.capture.isSome) = true := by
  have h := (getLegalMoves_mandatory_capture w1Board Player.light).1 (by decide)
  exact ⟨by decide, h.1, h.2⟩

/-- Claim C10: a `forcedPieceId` of 0 is treated as absent (0 is falsy in
the JS truthiness check), so the full mandatory-capture scan runs instead
of the forced-piece lookup; and `createInitialBoard 0` really does assign
id 0 to the first piece placed, at square (0,1). -/
theorem getLegalMoves_zero_treated_absent :
    (∀ (board : Board) (player : Player),
      getLegalMoves board player (some 0) = getLegalMoves board player none) ∧
    getCell (createInitialBoard 0).1 0 1 =
      some { id := 0, player := Player.dark, king := false } := by
  exact ⟨fun board player => rfl, by decide⟩

theorem getLegalMoves_forced_eq (board : Board) (player : Player) (fid : Nat) (hfid : fid ≠ 0) :
    getLegalMoves board player (some fid) =
      (match findPiece fid board with
       | none => []
       | some (r, c, piece) => getSinglePieceCaptures board r c piece) := by
  unfold getLegalMoves
  rw [Option.getD_some, if_pos hfid]

/-- Claim C4 (amended to nonzero ids): with a set nonzero `forcedPieceId`,
the result is exactly the capture moves of the unique piece carrying that
id from its current square; it is empty when no such piece exists; and
every returned move is a capture by that piece. -/
theorem getLegalMoves_forced_nonzero (board : Board) (player : Player) (fid : Nat)
    (hfid : fid ≠ 0) :
    (∀ (r c : Int) (piece : Piece), (r, c) ∈ allSquares →
      getCell board r c = some piece → piece.id = fid → idOnlyAt board fid r c = true →
      getLegalMoves board player (some fid) = getSinglePieceCaptures board r c piece) ∧
    (idAbsent board fid = true → getLegalMoves board player (some fid) = []) ∧
    (∀ m ∈ getLegalMoves board player (some fid),
      m.capture.isSome = true ∧ m.pieceId = fid) := by
  refine ⟨?_, ?_, ?_⟩
  · intro r c piece hsq hcell hid huniq
    have hfind : findPiece fid board = some (r, c, piece) := by
      unfold findPiece
      refine findSome?_eq_some_of_unique _ (r, c, piece) allSquares
        ⟨(r, c), hsq, by simp [hcell, hid]⟩ ?_
      intro rc hrc w hw
      cases hcw : getCell board rc.1 rc.2 with
      | none => simp [hcw] at hw
      | some p =>
        simp only [hcw] at hw
        by_cases hp : p.id = fid
        · rw [if_pos hp] at hw
          have hone := List.all_eq_true.mp huniq rc hrc
          simp only [hcw, hp, bne_self_eq_false, Bool.false_or, Bool.and_eq_true,
            beq_iff_eq] at hone
          obtain ⟨h1, h2⟩ := hone
          obtain rfl := (Option.some.inj hw).symm
          have : getCell board rc.1 rc.2 = some piece := by rw [h1, h2, hcell]
          rw [hcw] at this
          obtain rfl := (Option.some.inj this)
          rw [h1, h2]
        · rw [if_neg hp] at hw
          cases hw
    rw [getLegalMoves_forced_eq board player fid hfid, hfind]
  · intro habsent
    have hfind : findPiece fid board = none := by
      unfold findPiece
      refine findSome?_eq_none_of_all _ allSquares ?_
      intro rc hrc
      have hnone := List.all_eq_true.mp habsent rc hrc
      cases hcw : getCell board rc.1 rc.2 with
      | none => simp [hcw]
      | some p =>
        simp only [hcw, bne_iff_ne, ne_eq, decide_eq_true_eq] at hnone
        simp [hcw, hnone]
    rw [getLegalMoves_forced_eq board player fid hfid, hfind]
  · intro m hm
    rw [getLegalMoves_forced_eq board player fid hfid] at hm
    cases hfind : findPiece fid board with
    | none =>
      rw [hfind] at hm
      cases hm
    | some rcp =>
      obtain ⟨r, c, p⟩ := rcp
      rw [hfind] at hm
      have hpid : p.id = fid := by
        obtain ⟨rc, hrc, hf⟩ := List.exists_of_findSome?_eq_some hfind
        cases hcw : getCell board rc.1 rc.2 with
        | none => simp [hcw] at hf
        | some q =>
          simp only [hcw] at hf
          by_cases hq : q.id = fid
          · rw [if_pos hq] at hf
            have hqp : q = p := congrArg (fun t => t.2.2) (Option.some.inj hf)
            rw [← hqp]
            exact hq
          · rw [if_neg hq] at hf
            cases hf
      obtain ⟨hc1, hc2, hc3⟩ := mem_getSinglePieceCaptures board r c p m hm
      exact ⟨hc1, by rw [hc2, hpid]⟩

/-- Witness for C4: piece 7 is the unique holder of its id on `w4Board` and
the forced result is exactly its captures, all of them captures by piece 7. -/
theorem forced_nonzero_instance :
    (7 : Nat) ≠ 0 ∧
    getLegalMoves w4Board Player.light (some 7) =
      getSinglePieceCaptures w4Board 4 3 { id := 7, player := Player.light, king := false } ∧
    (getLegalMoves w4Board Player.light (some 7)).all
      (fun m => m.capture.isSome && (m.pieceId == 7)) = true := by
  have h := getLegalMoves_forced_nonzero w4Board Player.light 7 (by decide)
  refine ⟨by decide, ?_, by decide⟩
  exact h.1 4 3 { id := 7, player := Player.light, king := false }
    (by decide) (by decide) (by decide) (by decide)

/-- Counterexample to C4 as frozen: forcedPieceId = 0 is set (non-null) and
no piece of id 0 exists, so the claim demands the empty list, but the scan
branch runs and returns the light piece's slides. -/
theorem getLegalMoves_forced_zero_cex :
    idAbsent cex4Board 0 = true ∧
    getLegalMoves cex4Board Player.light (some 0) ≠ [] := by
  exact ⟨by decide, by decide⟩

/-- Claim C5: applying a move whose on-board source square is empty is a
no-op transition: the input board value is returned unchanged, the same
player stays to move, and no forced piece, captured piece or promotion is
reported; the embedded total function returns this record rather than
failing. -/
theorem applyMove_empty_from_noop (board : Board) (move : Move) (player : Player)
    (h0 : 0 ≤ move.fromSq.1) (h1 : move.fromSq.1 < 8)
    (h2 : 0 ≤ move.fromSq.2) (h3 : move.fromSq.2 < 8)
    (hempty : getCell board move.fromSq.1 move.fromSq.2 = none) :
    applyMove board move player =
      { board := board, currentPlayer := player, forcedPieceId := none,
        capturedPieceId := none, promoted := false } :=
  applyMove_of_none board move player hempty

/-- Witness for C5 at the empty board and a move leaving (0,0). -/
theorem empty_from_noop_instance :
    getCell emptyBoard 0 0 = none ∧
    applyMove emptyBoard w5Move Player.light =
      { board := emptyBoard, currentPlayer := Player.light, forcedPieceId := none,
        capturedPieceId := none, promoted := false } := by
  refine ⟨by decide, ?_⟩
  exact applyMove_empty_from_noop emptyBoard w5Move Player.light (by decide) (by decide)
    (by decide) (by decide) (by decide)

theorem applyMoveCore_fields (board : Board) (move : Move) (player : Player) (piece : Piece) :
    (applyMoveCore board move player piece).promoted = promotes piece move.toSq.1 ∧
    (applyMoveCore board move player piece).currentPlayer =
      (if (move.capture.isSome && !(promotes piece move.toSq.1) &&
          !(getSinglePieceCaptures (applyMoveCore board move player piece).board
              move.toSq.1 move.toSq.2
              (if promotes piece move.toSq.1 then { piece with king := true } else piece)).isEmpty) =
          true
       then player else otherPlayer player) ∧
    (applyMoveCore board move player piece).forcedPieceId =
      (if (move.capture.isSome && !(promotes piece move.toSq.1) &&
          !(getSinglePieceCaptures (applyMoveCore board move player piece).board
              move.toSq.1 move.toSq.2
              (if promotes piece move.toSq.1 then { piece with king := true } else piece)).isEmpty) =
          true
       then some piece.id else none) := by
  simp only [applyMoveCore]
  exact ⟨trivial, trivial, trivial⟩

theorem isEmpty_false_of_ne {α : Type} (l : List α) (h : l ≠ []) : l.isEmpty = false := by
  cases l with
  | nil => exact absurd rfl h
  | cons a t => rfl

/-- Claim C2: for a capture move of an existing piece that this move does
not promote, the turn continues (same player, forced id of the moved
piece) exactly when the piece still has a capture candidate from its
destination square on the resulting board; a capture without followups, a
slide, and a promoting capture all pass the turn with no forced piece. -/
theorem applyMove_turn_continuation (board : Board) (move : Move) (player : Player)
    (piece : Piece)
    (hfrom : getCell board move.fromSq.1 move.fromSq.2 = some piece) :
    (move.capture.isSome = true → promotes piece move.toSq.1 = false →
      (getSinglePieceCaptures (applyMove board move player).board
          move.toSq.1 move.toSq.2 piece ≠ [] →
        (applyMove board move player).currentPlayer = player ∧
        (applyMove board move player).forcedPieceId = some piece.id) ∧
      (getSinglePieceCaptures (applyMove board move player).board
          move.toSq.1 move.toSq.2 piece = [] →
        (applyMove board move player).currentPlayer = otherPlayer player ∧
        (applyMove board move player).forcedPieceId = none)) ∧
    (move.capture = none →
      (applyMove board move player).currentPlayer = otherPlayer player ∧
      (applyMove board move player).forcedPieceId = none) ∧
    (promotes piece move.toSq.1 = true →
      (applyMove board move player).currentPlayer = otherPlayer player ∧
      (applyMove board move player).forcedPieceId = none) := by
  rw [applyMove_of_some board move player piece hfrom]
  obtain ⟨hpromf, hcur, hforc⟩ := applyMoveCore_fields board move player piece
  refine ⟨?_, ?_, ?_⟩
  · intro hcap hnp
    constructor
    · intro hne
      have hie := isEmpty_false_of_ne _ hne
      constructor
      · rw [hcur]
        simp [hcap, hnp, hie]
      · rw [hforc]
        simp [hcap, hnp, hie]
    · intro hnil
      constructor
      · rw [hcur]
        simp [hcap, hnp, hnil]
      · rw [hforc]
        simp [hcap, hnp, hnil]
  · intro hnone
    constructor
    · rw [hcur]
      simp [hnone]
    · rw [hforc]
      simp [hnone]
  · intro hp
    constructor
    · rw [hcur]
      simp [hp]
    · rw [hforc]
      simp [hp]

/-- Witness for C2: light captures from (5,2) to (3,0) over (4,1) on
`w2Board`; a further capture over (2,1) exists, so light keeps the turn
and piece 1 becomes the forced piece. -/
theorem turn_continuation_instance :
    getCell w2Board w2Move.fromSq.1 w2Move.fromSq.2 =
      some { id := 1, player := Player.light, king := false } ∧
    w2Move.capture.isSome = true ∧
    promotes { id := 1, player := Player.light, king := false } w2Move.toSq.1 = false ∧
    getSinglePieceCaptures (applyMove w2Board w2Move Player.light).board
      w2Move.toSq.1 w2Move.toSq.2 { id := 1, player := Player.light, king := false } ≠ [] ∧
    (applyMove w2Board w2Move Player.light).currentPlayer = Player.light ∧
    (applyMove w2Board w2Move Player.light).forcedPieceId = some 1 := by
  have h := ((applyMove_turn_continuation w2Board w2Move Player.light
      { id := 1, player := Player.light, king := false } (by decide)).1
      (by decide) (by decide)).1 (by decide)
  exact ⟨by decide, by decide, by decide, by decide, h.1, h.2⟩

/-- Claim C3: a move of an existing non-king piece of the mover landing on
the mover's far rank promotes: the king flag of the moved piece is set on
the resulting board, `promoted` is reported true, no piece is forced and
the turn passes to the opponent — even for a capture whose freshly crowned
king would have further captures. -/
theorem applyMove_promotion_ends_turn (board : Board) (move : Move) (player : Player)
    (piece : Piece)
    (hfrom : getCell board move.fromSq.1 move.fromSq.2 = some piece)
    (hk : piece.king = false)
    (hpl : piece.player = player)
    (hrank : move.toSq.1 = (if player = Player.light then (0 : Int) else 7)) :
    (applyMove board move player).promoted = true ∧
    (applyMove board move player).forcedPieceId = none ∧
    (applyMove board move player).currentPlayer = otherPlayer player ∧
    (boardWf board = true → isInside move.toSq.1 move.toSq.2 = true →
      move.capture ≠ some move.toSq →
      getCell (applyMove board move player).board move.toSq.1 move.toSq.2 =
        some { id := piece.id, player := piece.player, king := true }) := by
  have hprom : promotes piece move.toSq.1 = true := by
    cases hp2 : player with
    | light =>
      rw [hp2] at hpl hrank
      have hr0 : move.toSq.1 = 0 := by simpa using hrank
      simp [promotes, hk, hpl, hr0]
    | dark =>
      rw [hp2] at hpl hrank
      have hr7 : move.toSq.1 = 7 := by simpa using hrank
      simp [promotes, hk, hpl, hr7]
  rw [applyMove_of_some board move player piece hfrom]
  obtain ⟨hpromf, hcur, hforc⟩ := applyMoveCore_fields board move player piece
  refine ⟨by rw [hpromf, hprom], by rw [hforc]; simp [hprom], by rw [hcur]; simp [hprom], ?_⟩
  intro hwf hin hcapne
  have hb : 0 ≤ move.toSq.1 ∧ move.toSq.1 < 8 ∧ 0 ≤ move.toSq.2 ∧ move.toSq.2 < 8 := by
    simpa [isInside] using hin
  obtain ⟨ht0, ht1, ht2, ht3⟩ := hb
  have hwf1 := boardWf_setCell board move.fromSq.1 move.fromSq.2 none hwf
  have hcell2 : getCell (setCell (setCell board move.fromSq.1 move.fromSq.2 none)
      move.toSq.1 move.toSq.2 (some piece)) move.toSq.1 move.toSq.2 = some piece :=
    getCell_setCell_self _ _ _ _ hwf1 ht0 ht1 ht2 ht3
  have hwf2 := boardWf_setCell _ move.toSq.1 move.toSq.2 (some piece) hwf1
  cases hcapo : move.capture with
  | none =>
    simp only [applyMoveCore, hcapo, hprom, hcell2]
    simp only [if_true, and_true, if_pos rfl]
    exact getCell_setCell_self _ _ _ _ hwf2 ht0 ht1 ht2 ht3
  | some cap =>
    have hneq : move.toSq.1 ≠ cap.1 ∨ move.toSq.2 ≠ cap.2 := by
      by_contra hcon
      push_neg at hcon
      refine hcapne ?_
      rw [hcapo]
      have : cap = move.toSq := Prod.ext hcon.1.symm hcon.2.symm
      rw [this]
    have hcell3 : getCell (setCell (setCell (setCell board move.fromSq.1 move.fromSq.2 none)
        move.toSq.1 move.toSq.2 (some piece)) cap.1 cap.2 none)
        move.toSq.1 move.toSq.2 = some piece := by
      rw [getCell_setCell_ne _ _ _ _ _ _ hneq]
      exact hcell2
    have hwf3 := boardWf_setCell _ cap.1 cap.2 none hwf2
    simp only [applyMoveCore, hcapo, hprom, hcell3]
    simp only [if_true, and_true, if_pos rfl]
    exact getCell_setCell_self _ _ _ _ hwf3 ht0 ht1 ht2 ht3

/-- Witness for C3: the capture from (2,1) to (0,3) over (1,2) promotes the
light man; the turn passes with no forced piece even though the new king
has a further capture over (1,4). -/
theorem promotion_ends_turn_instance :
    getCell w3Board w3Move.fromSq.1 w3Move.fromSq.2 =
      some { id := 1, player := Player.light, king := false } ∧
    (applyMove w3Board w3Move Player.light).promoted = true ∧
    (applyMove w3Board w3Move Player.light).forcedPieceId = none ∧
    (applyMove w3Board w3Move Player.light).currentPlayer = Player.dark ∧
    getCell (applyMove w3Board w3Move Player.light).board 0 3 =
      some { id := 1, player := Player.light, king := true } ∧
    getSinglePieceCaptures (applyMove w3Board w3Move Player.light).board 0 3
      { id := 1, player := Player.light, king := true } ≠ [] := by
  have h := applyMove_promotion_ends_turn w3Board w3Move Player.light
    { id := 1, player := Player.light, king := false }
    (by decide) (by decide) (by decide) (by decide)
  exact ⟨by decide, h.1, h.2.1, h.2.2.1.trans (by decide),
    h.2.2.2 (by decide) (by decide) (by decide), by decide⟩

/-- Claim C7: whenever the mover has no legal moves, minimax returns exactly
-1000 - depth if the mover is the maximizing player and 1000 + depth
otherwise, at every depth (so before any depth-0 cutoff evaluation), for
every alpha, beta and random source, which are left untouched. -/
theorem minimax_terminal_score (maximizingPlayer : Player) (depth : Nat) (board : Board)
    (currentPlayer : Player) (forcedPieceId : Option Nat) (alpha beta : Score) (rand : Rng)
    (h : getLegalMoves board currentPlayer forcedPieceId = []) :
    minimax maximizingPlayer depth board currentPlayer forcedPieceId alpha beta rand =
      ((if currentPlayer = maximizingPlayer then Score.fin (-1000 - (depth : ℚ))
        else Score.fin (1000 + (depth : ℚ))), rand) := by
  cases depth with
  | zero => simp [minimax, h]
  | succ d => simp [minimax, h]

/-- Witness for C7: the empty board has no legal moves, and minimax at
depth 2 reports the loss value -1002 for the maximizing mover. -/
theorem minimax_terminal_instance :
    getLegalMoves emptyBoard Player.light none = [] ∧
    minimax Player.light 2 emptyBoard Player.light none Score.negInf Score.posInf rand0 =
      (Score.fin (-1000 - (2 : ℚ)), rand0) := by
  refine ⟨by decide, ?_⟩
  have h := minimax_terminal_score Player.light 2 emptyBoard Player.light none
    Score.negInf Score.posInf rand0 (by decide)
  simpa using h

theorem getElem?_length_pred {α : Type} : ∀ (l : List α), l ≠ [] → l[l.length - 1]? = l.getLast? := by
  intro l
  induction l with
  | nil => intro h; exact absurd rfl h
  | cons a t ih =>
    intro _
    cases t with
    | nil => rfl
    | cons b u =>
      rw [List.getLast?_cons_cons]
      show (a :: b :: u)[u.length + 1]? = (b :: u).getLast?
      rw [List.getElem?_cons_succ]
      exact ih (by simp)

/-- Claim C8 (amended to lists of at most 100 moves): the easy policy with
the constant 0.99 random source picks index min(count - 1, floor(0.99 *
count)), which is the last index for every nonempty list of at most 100
moves (and only for those: floor(0.99 * count) drops below count - 1 past
100 entries). -/
theorem chooseMove_easy_returns_last (moves : List Move) (board : Board) (player : Player)
    (hne : moves ≠ []) (hlen : moves.length ≤ 100) :
    chooseMoveBySkill AISkill.easy moves board player rand99 = moves.getLast? := by
  have hn1 : 1 ≤ moves.length := List.length_pos.mpr hne
  have hfl : ⌊(99 / 100 : ℚ) * (moves.length : ℚ)⌋ = (moves.length : Int) - 1 := by
    rw [Int.floor_eq_iff]
    constructor
    · push_cast
      have h100 : (moves.length : ℚ) ≤ 100 := by exact_mod_cast hlen
      linarith
    · push_cast
      have h1 : (1 : ℚ) ≤ (moves.length : ℚ) := by exact_mod_cast hn1
      linarith
  have hidx : min ((moves.length : Int) - 1) ⌊(99 / 100 : ℚ) * (moves.length : ℚ)⌋ =
      (moves.length : Int) - 1 := by
    rw [hfl, min_self]
  unfold chooseMoveBySkill
  rw [if_neg (by simp [isEmpty_false_of_ne moves hne])]
  dsimp only [Rng.next, rand99]
  rw [hidx]
  rw [if_neg (by omega)]
  have htn : ((moves.length : Int) - 1).toNat = moves.length - 1 := by omega
  rw [htn]
  exact getElem?_length_pred moves hne

/-- Witness for C8 on a two-element list. -/
theorem easy_returns_last_instance :
    [w8MoveA, w8MoveB] ≠ ([] : List Move) ∧ [w8MoveA, w8MoveB].length ≤ 100 ∧
    chooseMoveBySkill AISkill.easy [w8MoveA, w8MoveB] emptyBoard Player.light rand99 =
      [w8MoveA, w8MoveB].getLast? := by
  refine ⟨by decide, by decide, ?_⟩
  exact chooseMove_easy_returns_last [w8MoveA, w8MoveB] emptyBoard Player.light
    (by decide) (by decide)

/-- Counterexample to C8 as frozen: on the 101-element list `cex8Moves`
the easy policy with the constant 0.99 source returns element 99 (the
hundredth), not the distinct last element. -/
theorem chooseMove_easy_long_list_cex :
    chooseMoveBySkill AISkill.easy cex8Moves emptyBoard Player.light rand99 = some w8MoveA ∧
    cex8Moves.getLast? = some w8MoveB ∧
    w8MoveA ≠ w8MoveB := by
  have hlen : cex8Moves.length = 101 := by decide
  have hfl : ⌊(99 / 100 : ℚ) * (cex8Moves.length : ℚ)⌋ = 99 := by
    rw [hlen]
    rw [Int.floor_eq_iff]
    constructor
    · push_cast
      linarith
    · push_cast
      linarith
  refine ⟨?_, by decide, by decide⟩
  unfold chooseMoveBySkill
  rw [if_neg (by decide)]
  dsimp only [Rng.next, rand99]
  rw [hfl, hlen]
  rw [if_neg (by decide)]
  decide

theorem scoreMove_capture_ge (board : Board) (player : Player) (r c : Int) (piece : Piece)
    (m : Move) (hcell : getCell board r c = some piece) (hpl : piece.player = player)
    (hm : m ∈ getSinglePieceCaptures board r c piece) (j : ℚ) (hj0 : 0 ≤ j) :
    6 ≤ scoreMove m board player j := by
  obtain ⟨d, hd, hsome⟩ := List.mem_filterMap.mp hm
  obtain ⟨h1, h2, h3, h4, h5⟩ := captureInDir_eq_some board r c piece d m hsome
  have hb : 0 ≤ r + d.1 * 2 ∧ r + d.1 * 2 < 8 ∧ 0 ≤ c + d.2 * 2 ∧ c + d.2 * 2 < 8 := by
    simpa [isInside] using h5
  obtain ⟨hb0, hb1, hb2, hb3⟩ := hb
  have hx0 : (0 : ℚ) ≤ ((r + d.1 * 2 : Int) : ℚ) := by exact_mod_cast hb0
  have hx8 : ((r + d.1 * 2 : Int) : ℚ) ≤ 7 := by exact_mod_cast (by omega : (r + d.1 * 2 : Int) ≤ 7)
  have hy0 : (0 : ℚ) ≤ ((c + d.2 * 2 : Int) : ℚ) := by exact_mod_cast hb2
  have hy8 : ((c + d.2 * 2 : Int) : ℚ) ≤ 7 := by exact_mod_cast (by omega : (c + d.2 * 2 : Int) ≤ 7)
  have e1 : |((r + d.1 * 2 : Int) : ℚ) - 3.5| ≤ 3.5 := by
    rw [abs_le]
    constructor <;> linarith
  have e2 : |((c + d.2 * 2 : Int) : ℚ) - 3.5| ≤ 3.5 := by
    rw [abs_le]
    constructor <;> linarith
  have hjit : (0 : ℚ) ≤ j * 0.2 := by
    have : (0 : ℚ) ≤ (0.2 : ℚ) := by norm_num
    exact mul_nonneg hj0 this
  have hadv : piece.king = false →
      (if player = Player.light then r - (r + d.1 * 2) else r + d.1 * 2 - r) = (2 : Int) := by
    intro hk2
    rw [getDirections] at hd
    rw [hk2] at hd
    simp only [Bool.false_eq_true, if_false] at hd
    cases hpp : piece.player with
    | light =>
      rw [hpp] at hd hpl
      rw [if_pos rfl] at hd
      rw [if_pos hpl.symm]
      simp only [List.mem_cons, List.mem_singleton, List.not_mem_nil, or_false] at hd
      rcases hd with rfl | rfl <;> omega
    | dark =>
      rw [hpp] at hd hpl
      rw [if_neg (by simp)] at hd
      rw [if_neg (by rw [← hpl]; simp)]
      simp only [List.mem_cons, List.mem_singleton, List.not_mem_nil, or_false] at hd
      rcases hd with rfl | rfl <;> omega
  simp only [scoreMove, h2, h3, h4, hcell]
  split
  case _ captured heq =>
    split
    case _ hck =>
      split
      case _ hk => linarith
      case _ hk =>
        split
        case _ hpr => linarith
        case _ hpr =>
          rw [hadv (by simpa using hk)]
          push_cast at e1 e2 ⊢
          linarith
    case _ hck =>
      split
      case _ hk => linarith
      case _ hk =>
        split
        case _ hpr => linarith
        case _ hpr =>
          rw [hadv (by simpa using hk)]
          push_cast at e1 e2 ⊢
          linarith
  case _ heq =>
    split
    case _ hk => linarith
    case _ hk =>
      split
      case _ hpr => linarith
      case _ hpr =>
        rw [hadv (by simpa using hk)]
        push_cast at e1 e2 ⊢
        linarith

theorem scoreMove_slide_lt (board : Board) (player : Player) (r c : Int) (piece : Piece)
    (m : Move) (hcell : getCell board r c = some piece)
    (hm : m ∈ getSinglePieceSlides board r c piece) (j : ℚ) (hj0 : 0 ≤ j) (hj1 : j < 1) :
    scoreMove m board player j < 6 := by
  obtain ⟨d, hd, hsome⟩ := List.mem_filterMap.mp hm
  obtain ⟨h1, h2, h3, h4, h5⟩ := slideInDir_eq_some board r c piece d m hsome
  have hjit : j * 0.2 < 0.2 := by nlinarith
  have habs1 : (0 : ℚ) ≤ |((r + d.1 : Int) : ℚ) - 3.5| := abs_nonneg _
  have habs2 : (0 : ℚ) ≤ |((c + d.2 : Int) : ℚ) - 3.5| := abs_nonneg _
  have hd1 : d.1 = -1 ∨ d.1 = 1 := by
    rw [getDirections] at hd
    by_cases hk : piece.king = true
    · rw [if_pos hk] at hd
      simp only [List.mem_cons, List.mem_singleton, List.not_mem_nil, or_false] at hd
      rcases hd with rfl | rfl | rfl | rfl <;> simp
    · rw [if_neg hk] at hd
      by_cases hpp : piece.player = Player.light
      · rw [if_pos hpp] at hd
        simp only [List.mem_cons, List.mem_singleton, List.not_mem_nil, or_false] at hd
        rcases hd with rfl | rfl <;> simp
      · rw [if_neg hpp] at hd
        simp only [List.mem_cons, List.mem_singleton, List.not_mem_nil, or_false] at hd
        rcases hd with rfl | rfl <;> simp
  have hadv : ((if player = Player.light then r - (r + d.1) else r + d.1 - r : Int) : ℚ) ≤ 1 := by
    have hq : (if player = Player.light then r - (r + d.1) else r + d.1 - r : Int) ≤ 1 := by
      rcases hd1 with h | h <;> split <;> omega
    exact_mod_cast hq
  simp only [scoreMove, h2, h3, h4, hcell]
  split
  case _ hk => linarith
  case _ hk =>
    split
    case _ hpr => linarith
    case _ hpr => linarith [hadv]

theorem score_ble_six (q : ℚ) (h : 6 ≤ q) : Score.ble (Score.fin 6) (Score.fin q) = true := by
  simp only [Score.ble, Score.blt, Bool.not_eq_true', decide_eq_false_iff_not]
  exact not_lt.mpr h

theorem score_ble_six_inv (q : ℚ) (h : Score.ble (Score.fin 6) (Score.fin q) = true) : 6 ≤ q := by
  simp only [Score.ble, Score.blt, Bool.not_eq_true', decide_eq_false_iff_not] at h
  exact not_lt.mp h

theorem score_blt_fin (a b : ℚ) : Score.blt (Score.fin a) (Score.fin b) = true ↔ a < b := by
  simp [Score.blt]

theorem bestLoop_keeps_capture (board : Board) (player : Player) :
    ∀ (l : List Move) (bestMove : Move) (bestScore : Score) (rand : Rng),
      (∀ n, 0 ≤ rand.seq n ∧ rand.seq n < 1) →
      (∀ m ∈ l, isPieceCandidate board player m) →
      (bestScore = Score.negInf ∨
        ∃ jq, 0 ≤ jq ∧ jq < 1 ∧ bestScore = Score.fin (scoreMove bestMove board player jq) ∧
          (bestMove.capture.isSome = false → scoreMove bestMove board player jq < 6)) →
      ((∃ m ∈ l, m.capture.isSome = true) ∨
        (bestMove.capture.isSome = true ∧ Score.ble (Score.fin 6) bestScore = true)) →
      ((bestLoop board player l bestMove bestScore rand).1).capture.isSome = true := by
  intro l
  induction l with
  | nil =>
    intro bestMove bestScore rand hrand hcand hinv hgoal
    rcases hgoal with ⟨m, hm, _⟩ | ⟨hbc, _⟩
    · cases hm
    · simpa [bestLoop] using hbc
  | cons a rest ih =>
    intro bestMove bestScore rand hrand hcand hinv hgoal
    obtain ⟨ra, ca, pa, hcella, hpla, hora⟩ := hcand a (List.mem_cons_self a rest)
    have hjb := hrand rand.idx
    have hbound : (a.capture.isSome = true ∧ 6 ≤ scoreMove a board player (rand.seq rand.idx)) ∨
        (a.capture.isSome = false ∧ scoreMove a board player (rand.seq rand.idx) < 6) := by
      rcases hora with hcapmem | hslidemem
      · exact Or.inl ⟨(mem_getSinglePieceCaptures board ra ca pa a hcapmem).1,
          scoreMove_capture_ge board player ra ca pa a hcella hpla hcapmem _ hjb.1⟩
      · refine Or.inr ⟨?_, scoreMove_slide_lt board player ra ca pa a hcella hslidemem _ hjb.1 hjb.2⟩
        obtain ⟨d, hdmem, hsd⟩ := List.mem_filterMap.mp hslidemem
        obtain ⟨_, _, _, hcnone, _⟩ := slideInDir_eq_some board ra ca pa d a hsd
        rw [hcnone]
        rfl
    rw [bestLoop]
    dsimp only [Rng.next]
    by_cases hblt : Score.blt bestScore (Score.fin (scoreMove a board player (rand.seq rand.idx))) = true
    · rw [if_pos hblt]
      apply ih
      · exact hrand
      · exact fun m hm => hcand m (List.mem_cons_of_mem a hm)
      · refine Or.inr ⟨rand.seq rand.idx, hjb.1, hjb.2, rfl, fun hfalse => ?_⟩
        rcases hbound with ⟨ht, _⟩ | ⟨_, hlt⟩
        · rw [ht] at hfalse
          cases hfalse
        · exact hlt
      · rcases hgoal with ⟨m0, hm0, hcap0⟩ | ⟨hbc, hble⟩
        · rcases List.mem_cons.mp hm0 with rfl | hm0r
          · refine Or.inr ?_
            rcases hbound with ⟨_, h6⟩ | ⟨hf, _⟩
            · exact ⟨hcap0, score_ble_six _ h6⟩
            · rw [hcap0] at hf
              cases hf
          · exact Or.inl ⟨m0, hm0r, hcap0⟩
        · refine Or.inr ?_
          rcases hinv with rfl | ⟨jq, _, _, hbs, hcond⟩
          · simp [Score.ble, Score.blt] at hble
          · rw [hbs] at hble hblt
            have h6b := score_ble_six_inv _ hble
            have hlt2 := (score_blt_fin _ _).mp hblt
            have h6a : 6 ≤ scoreMove a board player (rand.seq rand.idx) := by linarith
            rcases hbound with ⟨ht, _⟩ | ⟨_, hlts⟩
            · exact ⟨ht, score_ble_six _ h6a⟩
            · linarith
    · rw [if_neg hblt]
      apply ih
      · exact hrand
      · exact fun m hm => hcand m (List.mem_cons_of_mem a hm)
      · exact hinv
      · rcases hgoal with ⟨m0, hm0, hcap0⟩ | hright
        · rcases List.mem_cons.mp hm0 with rfl | hm0r
          · refine Or.inr ?_
            rcases hbound with ⟨ht, h6⟩ | ⟨hf, _⟩
            · rcases hinv with rfl | ⟨jq, _, _, hbs, hcond⟩
              · exact absurd (by simp [Score.blt]) hblt
              · rw [hbs] at hblt
                have hnl := fun hc => hblt ((score_blt_fin _ _).mpr hc)
                have hle := not_lt.mp hnl
                have h6b : 6 ≤ scoreMove bestMove board player jq := by linarith
                have hbcap : bestMove.capture.isSome = true := by
                  by_contra hbf
                  have := hcond (by simpa using hbf)
                  linarith
                exact ⟨hbcap, by rw [hbs]; exact score_ble_six _ h6b⟩
            · rw [hcap0] at hf
              cases hf
          · exact Or.inl ⟨m0, hm0r, hcap0⟩
        · exact Or.inr hright

/-- Claim C9 (amended to per-piece candidate lists): for every board,
player, random source with values in [0,1), and move list consisting of
per-piece move candidates of the player's pieces (each element a capture
or slide candidate of some piece of the player on the board) that
contains at least one capture move, the medium policy returns a capture
move, never a slide. -/
theorem chooseMove_medium_prefers_capture (moves : List Move) (board : Board) (player : Player)
    (rand : Rng)
    (hrand : ∀ n, 0 ≤ rand.seq n ∧ rand.seq n < 1)
    (hcand : ∀ m ∈ moves, isPieceCandidate board player m)
    (hcap : ∃ m ∈ moves, m.capture.isSome = true) :
    returnsCapture (chooseMoveBySkill AISkill.medium moves board player rand) := by
  cases moves with
  | nil =>
    obtain ⟨m, hm, _⟩ := hcap
    cases hm
  | cons a rest =>
    have h := bestLoop_keeps_capture board player (a :: rest) a Score.negInf rand hrand hcand
      (Or.inl rfl) (Or.inl hcap)
    unfold chooseMoveBySkill chooseBestMove
    rw [if_neg (by simp)]
    exact h

/-- Witness for C9: on `w9Board` the light man at (5,2) has both a slide
candidate and a capture candidate; the medium policy picks a capture. -/
theorem medium_prefers_capture_instance :
    w9Cap.capture.isSome = true ∧ w9Slide.capture = none ∧
    returnsCapture (chooseMoveBySkill AISkill.medium [w9Slide, w9Cap] w9Board
      Player.light rand0) := by
  refine ⟨by decide, by decide, ?_⟩
  apply chooseMove_medium_prefers_capture
  · intro n
    exact ⟨le_refl 0, show (0 : ℚ) < 1 by norm_num⟩
  · intro m hm
    rcases List.mem_cons.mp hm with rfl | hm2
    · exact ⟨5, 2, { id := 1, player := Player.light, king := false }, by decide, rfl,
        Or.inr (by decide)⟩
    · rcases List.mem_cons.mp hm2 with rfl | hm3
      · exact ⟨5, 2, { id := 1, player := Player.light, king := false }, by decide, rfl,
          Or.inl (by decide)⟩
      · cases hm3
  · exact ⟨w9Cap, by decide, by decide⟩

/-- Counterexample to C9 as frozen: both moves use on-board squares, the
list has a capture and a non-capture, the random values all lie in [0,1),
yet the medium policy returns the slide — the marked capture runs the man
at (0,1) backwards (it is not a candidate move of any piece), scoring
6 - 3.85 < the promoting slide's 4 + jitter + center terms. -/
theorem chooseMove_medium_slide_cex :
    (0 ≤ (99 : ℚ) / 100 ∧ (99 : ℚ) / 100 < 1) ∧
    cex9Cap.capture.isSome = true ∧ cex9Slide.capture = none ∧
    chooseMoveBySkill AISkill.medium [cex9Slide, cex9Cap] cex9Board Player.light rand99 =
      some cex9Slide := by
  have hgA : getCell cex9Board 1 2 = some { id := 2, player := Player.light, king := false } := by
    decide
  have hgB : getCell cex9Board 0 1 = some { id := 1, player := Player.light, king := false } := by
    decide
  have hgC : getCell cex9Board 4 4 = none := by decide
  have hpld : (Player.light = Player.dark) = False := eq_false (by decide)
  have hle : scoreMove cex9Cap cex9Board Player.light (99 / 100) ≤
      scoreMove cex9Slide cex9Board Player.light (99 / 100) := by
    simp only [scoreMove, cex9Slide, cex9Cap, hgA, hgB, hgC]
    simp [hpld]
    norm_num [abs_of_nonneg, abs_of_nonpos]
  refine ⟨⟨by norm_num, by norm_num⟩, by decide, by decide, ?_⟩
  unfold chooseMoveBySkill
  rw [if_neg (by decide)]
  unfold chooseBestMove
  show some ((bestLoop cex9Board Player.light [cex9Slide, cex9Cap] cex9Slide
      Score.negInf rand99).1) = some cex9Slide
  refine congrArg some ?_
  rw [bestLoop]
  dsimp only [Rng.next]
  rw [if_pos (show Score.blt Score.negInf (Score.fin (scoreMove cex9Slide cex9Board Player.light
    (rand99.seq rand99.idx))) = true from rfl)]
  rw [bestLoop]
  dsimp only [Rng.next]
  rw [if_neg ?hneg]
  case hneg =>
    intro hb
    have hlt := (score_blt_fin _ _).mp hb
    exact absurd hlt (not_lt.mpr hle)
  rw [bestLoop]
